import Mathlib

/-!
Shallow embedding of the trailing-stop controller of `comfyTrade`
(`src/trailing-stop-manager.js`, class `TrailingStopManager`).

Prices and distances are modelled as exact rationals (`ℚ`); the JS map
`trailingPositions : Map<ticket, entry>` is modelled as an association list
with unique keys and JS `Map` semantics for `get`/`set`/`delete`.  Wall-clock
fields (`lastAdjustment` timestamps, the `setInterval` machinery) are not part
of the value-level model; the interval handle is kept as an abstract
`Option Nat` so that `stop`'s branch structure is preserved.  Console logging
is omitted.  Persistence (`saveSettings`) is modelled by a save counter so
that "settings untouched" is observable.
-/

namespace ComfyTrade

/-- A bridge-reported open position, with the fields `calculateNewSLTP` and
`adjustAllPositions` read: `ticket`, `type` (the JS code tests
`position.type === 'BUY'`), `current_price`, `stop_loss`, `take_profit`.
The JS fallback chains `position.stop_loss || position.stopLoss || 0` and
`position.take_profit || position.takeProfit || 0` collapse to a single
rational field where `0` means "unset". -/
structure Position where
  ticket : Nat
  type : String
  current_price : ℚ
  stop_loss : ℚ
  take_profit : ℚ
deriving DecidableEq

/-- One tracked entry of `this.trailingPositions` (see `enableTrailing` /
`loadSettings`): per-ticket trailing configuration plus the mutable
`fixedTP` / `lastPrice` slots the cycle updates in place. -/
structure TrailingEntry where
  ticket : Nat
  slDistance : ℚ
  slDistancePercent : ℚ
  tpDistance : ℚ
  tpDistancePercent : ℚ
  triggerPrice : ℚ
  fixedTP : Option ℚ
  trailSLOnly : Bool
  lastPrice : ℚ
  enabled : Bool
deriving DecidableEq

/-- The object returned by `calculateNewSLTP` when an adjustment is due. -/
structure Adjustment where
  ticket : Nat
  stopLoss : ℚ
  takeProfit : ℚ
  currentPrice : ℚ
deriving DecidableEq

/-- The `settings` argument of `enableTrailing(ticket, settings)`. -/
structure TrailingSettings where
  slDistance : ℚ
  slDistancePercent : ℚ
  tpDistance : ℚ
  tpDistancePercent : ℚ
  triggerPrice : ℚ
  trailSLOnly : Bool
  initialPrice : ℚ
deriving DecidableEq

/-- Result of `window.mt5API.getPositions()`: `success` flag and optional
`data` array (`none` models a missing/undefined `data`). -/
structure GetPositionsResult where
  success : Bool
  data : Option (List Position)
deriving DecidableEq

/-- Outcome of one `window.mt5API.modifyPosition` call, as discriminated by
`adjustAllPositions`: `ok` is `modifyResult.success && modifyResult.data.success`;
`rejected msg` is the branch taking `modifyResult.data?.error || modifyResult.error
|| 'Unknown error'`; `threw msg` is the `catch` branch. -/
inductive ModifyOutcome where
  | ok
  | rejected (msg : String)
  | threw (msg : String)
deriving DecidableEq

/-- Result shape of `enableTrailing` / `disableTrailing`. -/
structure ActionResult where
  success : Bool
  message : String
deriving DecidableEq

/-- Manager state: the tracked map, the interval handle, and a counter of
`saveSettings` invocations standing in for the persisted file. -/
structure ManagerState where
  trailingPositions : List (Nat × TrailingEntry)
  intervalId : Option Nat
  saveCount : Nat
deriving DecidableEq

/-- The field `this.updateInterval = 5 * 60 * 1000` (milliseconds): the fixed cycle
interval; there is no backoff state anywhere in the manager. -/
def updateInterval : Nat := 5 * 60 * 1000

/-- JS `Map.get`. -/
def lookupTicket : List (Nat × TrailingEntry) → Nat → Option TrailingEntry
  | [], _ => none
  | (k, v) :: rest, t => if k = t then some v else lookupTicket rest t

/-- JS `Map.set` (overwrite the existing binding, else append). -/
def setTicket : List (Nat × TrailingEntry) → Nat → TrailingEntry → List (Nat × TrailingEntry)
  | [], t, v => [(t, v)]
  | (k, w) :: rest, t, v => if k = t then (t, v) :: rest else (k, w) :: setTicket rest t v

/-- JS `Map.delete`. -/
def deleteTicket (m : List (Nat × TrailingEntry)) (t : Nat) : List (Nat × TrailingEntry) :=
  m.filter (fun kv => decide (kv.1 ≠ t))

/-- Lines 187-191: `slDistance = trailing.slDistance`, overridden by
`currentPrice * (slDistancePercent / 100)` when `slDistancePercent > 0`. -/
def slDistanceOf (tr : TrailingEntry) (currentPrice : ℚ) : ℚ :=
  if 0 < tr.slDistancePercent then currentPrice * (tr.slDistancePercent / 100)
  else tr.slDistance

/-- Lines 193-200: TP distance is `0` in `trailSLOnly` mode, else
`tpDistance` overridden by the percentage form when `tpDistancePercent > 0`. -/
def tpDistanceOf (tr : TrailingEntry) (currentPrice : ℚ) : ℚ :=
  if tr.trailSLOnly then 0
  else if 0 < tr.tpDistancePercent then currentPrice * (tr.tpDistancePercent / 100)
  else tr.tpDistance

/-- Line 253's test `fixedTP === null || fixedTP <= 0` on the captured
(pre-mutation) `fixedTP` const. -/
def fixedTPInvalid : Option ℚ → Bool
  | none => true
  | some f => decide (f ≤ 0)

/-- Lines 166-168: whether the trigger price has been reached in the
favorable direction (`>=` for BUY, `<=` otherwise). -/
def triggerReached (pos : Position) (tr : TrailingEntry) (currentPrice : ℚ) : Bool :=
  if pos.type = "BUY" then decide (tr.triggerPrice ≤ currentPrice)
  else decide (currentPrice ≤ tr.triggerPrice)

/-- Lines 205-222: the new stop-loss.  For BUY the candidate
`currentPrice - slDistance` is discarded when below the current SL; for the
other side `currentPrice + slDistance` is discarded when above it.  With no
positive distance the SL is left as-is. -/
def newSLOf (tr : TrailingEntry) (pos : Position) (currentPrice : ℚ) : ℚ :=
  let currentSL := pos.stop_loss
  let slDistance := slDistanceOf tr currentPrice
  if 0 < slDistance then
    if pos.type = "BUY" then
      let n := currentPrice - slDistance
      if n < currentSL then currentSL else n
    else
      let n := currentPrice + slDistance
      if currentSL < n then currentSL else n
  else currentSL

/-- Lines 224-246: the new take-profit together with the (possibly mutated)
`trailing.fixedTP` slot.  In `trailSLOnly` mode a positive stored `fixedTP`
is used verbatim; otherwise the current TP is used and stored as the new
`fixedTP`.  Outside that mode the TP trails by `tpDistance` when positive. -/
def newTPAndFixed (tr : TrailingEntry) (pos : Position) (currentPrice : ℚ) : ℚ × Option ℚ :=
  let currentTP := pos.take_profit
  if tr.trailSLOnly then
    match tr.fixedTP with
    | some f => if 0 < f then (f, some f) else (currentTP, some currentTP)
    | none => (currentTP, some currentTP)
  else
    let tpDistance := tpDistanceOf tr currentPrice
    if 0 < tpDistance then
      (if pos.type = "BUY" then currentPrice + tpDistance else currentPrice - tpDistance,
       tr.fixedTP)
    else (currentTP, tr.fixedTP)

/-- Lines 177-271 of `calculateNewSLTP`, after the trigger gate: computes
SL/TP, updates `lastPrice` (and possibly `fixedTP`) on the entry, then applies
the two `return null` guards of lines 252-262 before returning the adjustment. -/
def calcAfterGate (tr : TrailingEntry) (pos : Position) (currentPrice : ℚ) :
    Option Adjustment × TrailingEntry :=
  let currentSL := pos.stop_loss
  let slDistance := slDistanceOf tr currentPrice
  let tpDistance := tpDistanceOf tr currentPrice
  let newSL := newSLOf tr pos currentPrice
  let tpRes := newTPAndFixed tr pos currentPrice
  let tr' : TrailingEntry := { tr with fixedTP := tpRes.2, lastPrice := currentPrice }
  if slDistance ≤ 0 ∧ (if tr.trailSLOnly then fixedTPInvalid tr.fixedTP = true else tpDistance ≤ 0) then
    (none, tr')
  else if tr.trailSLOnly = true ∧ newSL = currentSL then
    (none, tr')
  else
    (some { ticket := pos.ticket, stopLoss := newSL, takeProfit := tpRes.1,
            currentPrice := currentPrice }, tr')

/-- Body of `calculateNewSLTP` for a present entry: the `enabled` check and the
trigger-price gate of lines 156-176 (no entry mutation on a gated return),
then `calcAfterGate`. -/
def calcForEntry (tr : TrailingEntry) (pos : Position) (currentPrice : ℚ) :
    Option Adjustment × TrailingEntry :=
  if tr.enabled = false then (none, tr)
  else if 0 < tr.triggerPrice ∧ triggerReached pos tr currentPrice = false then (none, tr)
  else calcAfterGate tr pos currentPrice

/-- Method `calculateNewSLTP(position, currentPrice)` (lines 152-271): looks the
entry up in the tracked map (here passed in explicitly), returns the optional
adjustment and the entry's new value. -/
def calculateNewSLTP (tr : Option TrailingEntry) (pos : Position) (currentPrice : ℚ) :
    Option Adjustment × Option TrailingEntry :=
  match tr with
  | none => (none, none)
  | some tr =>
    let r := calcForEntry tr pos currentPrice
    (r.1, some r.2)

/-- Accumulated result of the `for (const position of positions)` loop of
`adjustAllPositions` (lines 303-338), plus the list of `modifyPosition`
calls actually issued (instrumentation for the statements below). -/
structure LoopOut where
  state : List (Nat × TrailingEntry)
  adjusted : Nat
  failed : List String
  calls : List Adjustment
deriving DecidableEq

/-- Lines 309-335: issue one `modifyPosition` call and record its outcome on
the running cycle result: a success bumps `adjustedCount`; a business
rejection or a thrown error pushes `Ticket <t>: <msg>` onto `failed`; in all
three cases the loop simply proceeds. -/
def recordModify (modify : Nat → ℚ → ℚ → ModifyOutcome) (adj : Adjustment)
    (r : LoopOut) : LoopOut :=
  match modify adj.ticket adj.stopLoss adj.takeProfit with
  | ModifyOutcome.ok => ⟨r.state, r.adjusted + 1, r.failed, adj :: r.calls⟩
  | ModifyOutcome.rejected msg =>
    ⟨r.state, r.adjusted,
     ("Ticket " ++ toString adj.ticket ++ ": " ++ msg) :: r.failed, adj :: r.calls⟩
  | ModifyOutcome.threw msg =>
    ⟨r.state, r.adjusted,
     ("Ticket " ++ toString adj.ticket ++ ": " ++ msg) :: r.failed, adj :: r.calls⟩

/-- The position loop of `adjustAllPositions`: for each position whose ticket
is tracked, compute the adjustment (mutating the entry in the map), and when
one is due call `modifyPosition` and record the outcome; one position's
failure never stops the loop. -/
def adjustLoop (tickets : List Nat) (modify : Nat → ℚ → ℚ → ModifyOutcome) :
    List (Nat × TrailingEntry) → List Position → LoopOut
  | st, [] => ⟨st, 0, [], []⟩
  | st, pos :: rest =>
    if pos.ticket ∈ tickets then
      match lookupTicket st pos.ticket with
      | none => adjustLoop tickets modify st rest
      | some tr =>
        match calcForEntry tr pos pos.current_price with
        | (none, tr') => adjustLoop tickets modify (setTicket st pos.ticket tr') rest
        | (some adj, tr') =>
          recordModify modify adj (adjustLoop tickets modify (setTicket st pos.ticket tr') rest)
    else adjustLoop tickets modify st rest

/-- Cycle statistics returned by `adjustAllPositions`; `fetched` records
whether `getPositions` was called this cycle. -/
structure CycleStats where
  adjusted : Nat
  failed : List String
  calls : List Adjustment
  fetched : Bool
deriving DecidableEq

/-- Method `adjustAllPositions` (lines 276-347): bail out with
`{adjusted: 0, failed: ['Not connected to MT5']}` when the API object is
absent or the (possibly undefined, defaulting to false) connected flag is not
true; bail out with `'Failed to get positions'` when the fetch fails; else run
the loop over the fetched positions against the tracked tickets and save. -/
def adjustAllPositions (api : Bool) (isConnectedFlag : Option Bool)
    (res : GetPositionsResult) (modify : Nat → ℚ → ℚ → ModifyOutcome)
    (s : ManagerState) : ManagerState × CycleStats :=
  let isConnected := isConnectedFlag.getD false
  if api = false ∨ isConnected = false then
    (s, ⟨0, ["Not connected to MT5"], [], false⟩)
  else
    match res.success, res.data with
    | true, some data =>
      let tickets := s.trailingPositions.map Prod.fst
      let out := adjustLoop tickets modify s.trailingPositions data
      ({ s with trailingPositions := out.state, saveCount := s.saveCount + 1 },
       ⟨out.adjusted, out.failed, out.calls, true⟩)
    | _, _ => (s, ⟨0, ["Failed to get positions"], [], true⟩)

/-- Lines 80-94 of `enableTrailing`: the fixed TP captured at enable time —
the live `take_profit` of the matching open position, when `trailSLOnly` is
requested and the bridge is present, connected and returns the position;
`null` otherwise. -/
def capturedFixedTP (api connected : Bool) (res : GetPositionsResult) (ticket : Nat)
    (trailSLOnly : Bool) : Option ℚ :=
  if trailSLOnly = true ∧ api = true ∧ connected = true then
    match res.success, res.data with
    | true, some data =>
      match data.find? (fun p => p.ticket == ticket) with
      | some position => some position.take_profit
      | none => none
    | _, _ => none
  else none

/-- Lines 96-108: the entry object `enableTrailing` stores for the ticket. -/
def entryFor (ticket : Nat) (settings : TrailingSettings) (fixedTP : Option ℚ) : TrailingEntry :=
  { ticket := ticket
    slDistance := settings.slDistance
    slDistancePercent := settings.slDistancePercent
    tpDistance := settings.tpDistance
    tpDistancePercent := settings.tpDistancePercent
    triggerPrice := settings.triggerPrice
    fixedTP := fixedTP
    trailSLOnly := settings.trailSLOnly
    lastPrice := settings.initialPrice
    enabled := true }

/-- Method `enableTrailing(ticket, settings)` (lines 78-114): capture the fixed TP,
store the entry, save. -/
def enableTrailing (api connected : Bool) (res : GetPositionsResult) (ticket : Nat)
    (settings : TrailingSettings) (s : ManagerState) : ManagerState :=
  { s with
      trailingPositions :=
        setTicket s.trailingPositions ticket
          (entryFor ticket settings (capturedFixedTP api connected res ticket settings.trailSLOnly))
      saveCount := s.saveCount + 1 }

/-- Method `disableTrailing(ticket)` (lines 119-126): delete and save when tracked,
else return `{success: false, message: 'Trailing stop not found'}` untouched. -/
def disableTrailing (s : ManagerState) (ticket : Nat) : ManagerState × ActionResult :=
  match lookupTicket s.trailingPositions ticket with
  | some _ =>
    ({ s with trailingPositions := deleteTicket s.trailingPositions ticket
              saveCount := s.saveCount + 1 },
     ⟨true, "Trailing stop disabled"⟩)
  | none => (s, ⟨false, "Trailing stop not found"⟩)

/-- Method `stop()` (lines 372-378): clear the interval only when one is set. -/
def stop (s : ManagerState) : ManagerState :=
  match s.intervalId with
  | some _ => { s with intervalId := none }
  | none => s

/-- Method `cleanup()` (lines 383-409): when connected and the fetch succeeds, delete
every tracked ticket that is not among the open positions' tickets, then save;
otherwise do nothing. -/
def cleanup (api : Bool) (isConnectedFlag : Option Bool) (res : GetPositionsResult)
    (s : ManagerState) : ManagerState :=
  let isConnected := isConnectedFlag.getD false
  if api = false ∨ isConnected = false then s
  else
    match res.success, res.data with
    | true, some data =>
      let openTickets := data.map Position.ticket
      let trailingTickets := s.trailingPositions.map Prod.fst
      let m := trailingTickets.foldl
        (fun m t => if t ∈ openTickets then m else deleteTicket m t) s.trailingPositions
      { s with trailingPositions := m, saveCount := s.saveCount + 1 }
    | _, _ => s

/-- One trailing cycle seen from a single position, with the broker applying a
successful modify: the position's SL/TP after the cycle at price `p`, together
with the updated entry. -/
def stepPos (pos : Position) (tr : TrailingEntry) (p : ℚ) : Position × TrailingEntry :=
  match calcForEntry tr { pos with current_price := p } p with
  | (some adj, tr') =>
    ({ pos with current_price := p, stop_loss := adj.stopLoss, take_profit := adj.takeProfit }, tr')
  | (none, tr') => ({ pos with current_price := p }, tr')

/-- The stop-loss values a position holds after each cycle of a price series. -/
def slTrace (pos : Position) (tr : TrailingEntry) : List ℚ → List ℚ
  | [] => []
  | p :: ps =>
    let s := stepPos pos tr p
    s.1.stop_loss :: slTrace s.1 s.2 ps

/-- Run `calculateNewSLTP` for one entry over a series of cycles, each cycle
supplying the bridge-reported position and current price; collects the
adjustments issued. -/
def runEntryCycles (tr : TrailingEntry) : List (Position × ℚ) → List Adjustment × TrailingEntry
  | [] => ([], tr)
  | (pos, p) :: rest =>
    match calcForEntry tr pos p with
    | (some adj, tr') =>
      let r := runEntryCycles tr' rest
      (adj :: r.1, r.2)
    | (none, tr') => runEntryCycles tr' rest

/-- The failure message `adjustAllPositions` records for a modify outcome
(`none` for a success). -/
def failMsgOf (o : ModifyOutcome) (ticket : Nat) : Option String :=
  match o with
  | ModifyOutcome.ok => none
  | ModifyOutcome.rejected msg => some ("Ticket " ++ toString ticket ++ ": " ++ msg)
  | ModifyOutcome.threw msg => some ("Ticket " ++ toString ticket ++ ": " ++ msg)

/-- Whether the modify oracle accepts the given call. -/
def isOkFor (modify : Nat → ℚ → ℚ → ModifyOutcome) (adj : Adjustment) : Bool :=
  match modify adj.ticket adj.stopLoss adj.takeProfit with
  | ModifyOutcome.ok => true
  | _ => false

end ComfyTrade

namespace ComfyTrade

/-! ### Association-list (JS `Map`) lemmas -/

theorem lookupTicket_setTicket_self (m : List (Nat × TrailingEntry)) (t : Nat)
    (v : TrailingEntry) : lookupTicket (setTicket m t v) t = some v := by
  induction m with
  | nil => simp [setTicket, lookupTicket]
  | cons kv rest ih =>
    obtain ⟨k, w⟩ := kv
    by_cases h : k = t
    · simp [setTicket, lookupTicket, h]
    · simp [setTicket, lookupTicket, h, ih]

theorem lookupTicket_setTicket_ne (m : List (Nat × TrailingEntry)) {k t : Nat}
    (v : TrailingEntry) (h : k ≠ t) :
    lookupTicket (setTicket m k v) t = lookupTicket m t := by
  induction m with
  | nil => simp [setTicket, lookupTicket, h]
  | cons kv rest ih =>
    obtain ⟨k', w⟩ := kv
    by_cases h' : k' = k
    · subst h'
      simp [setTicket, lookupTicket, h]
    · simp [setTicket, lookupTicket, h', ih]

theorem mem_deleteTicket {kv : Nat × TrailingEntry} {m : List (Nat × TrailingEntry)}
    {t : Nat} : kv ∈ deleteTicket m t ↔ kv ∈ m ∧ kv.1 ≠ t := by
  simp [deleteTicket, List.mem_filter]

/-! ### `calculateNewSLTP` structural lemmas -/

theorem calcAfterGate_some {tr tr' : TrailingEntry} {pos : Position} {p : ℚ}
    {adj : Adjustment} (h : calcAfterGate tr pos p = (some adj, tr')) :
    adj.ticket = pos.ticket ∧ adj.stopLoss = newSLOf tr pos p ∧
    adj.takeProfit = (newTPAndFixed tr pos p).1 ∧ adj.currentPrice = p ∧
    tr' = { tr with fixedTP := (newTPAndFixed tr pos p).2, lastPrice := p } := by
  simp only [calcAfterGate] at h
  split_ifs at h <;> simp only [Prod.mk.injEq, Option.some.injEq] at h <;>
    first
    | (exact absurd h.1 (by simp))
    | (obtain ⟨h3, h4⟩ := h
       subst h3
       subst h4
       exact ⟨rfl, rfl, rfl, rfl, rfl⟩)

theorem calcAfterGate_suppress {tr : TrailingEntry} {pos : Position} {p : ℚ}
    (hm : tr.trailSLOnly = true) (hs : newSLOf tr pos p = pos.stop_loss) :
    (calcAfterGate tr pos p).1 = none := by
  simp only [calcAfterGate]
  split_ifs with h1 h2
  · rfl
  · rfl
  · exact absurd ⟨hm, hs⟩ h2

theorem calcForEntry_some {tr tr' : TrailingEntry} {pos : Position} {p : ℚ}
    {adj : Adjustment} (h : calcForEntry tr pos p = (some adj, tr')) :
    calcAfterGate tr pos p = (some adj, tr') := by
  simp only [calcForEntry] at h
  split_ifs at h with h1 h2
  · simp at h
  · simp at h
  · exact h

theorem calcForEntry_gate {tr : TrailingEntry} {pos : Position} {p : ℚ}
    (htp : 0 < tr.triggerPrice) (hr : triggerReached pos tr p = false) :
    calcForEntry tr pos p = (none, tr) := by
  simp only [calcForEntry]
  split_ifs with h1 h2
  · rfl
  · rfl
  · exact absurd ⟨htp, hr⟩ h2

theorem calcForEntry_active {tr : TrailingEntry} {pos : Position} {p : ℚ}
    (he : tr.enabled = true) (h : tr.triggerPrice = 0 ∨ triggerReached pos tr p = true) :
    calcForEntry tr pos p = calcAfterGate tr pos p := by
  simp only [calcForEntry, he]
  rcases h with h | h
  · simp [h]
  · simp [h]

/-! ### Stop-loss ratchet lemmas -/

theorem newSLOf_buy {tr : TrailingEntry} {pos : Position} {p : ℚ}
    (hb : pos.type = "BUY") (hd : 0 < slDistanceOf tr p) :
    newSLOf tr pos p =
      if pos.stop_loss < p - slDistanceOf tr p then p - slDistanceOf tr p
      else pos.stop_loss := by
  simp only [newSLOf, hb, if_pos hd, if_true]
  split_ifs <;> first | rfl | linarith

theorem newSLOf_sell {tr : TrailingEntry} {pos : Position} {p : ℚ}
    (hb : pos.type ≠ "BUY") (hd : 0 < slDistanceOf tr p) :
    newSLOf tr pos p =
      if p + slDistanceOf tr p < pos.stop_loss then p + slDistanceOf tr p
      else pos.stop_loss := by
  simp only [newSLOf, hb, if_pos hd, if_false]
  split_ifs <;> first | rfl | linarith

theorem newSLOf_ge_buy {tr : TrailingEntry} {pos : Position} {p : ℚ}
    (hb : pos.type = "BUY") : pos.stop_loss ≤ newSLOf tr pos p := by
  simp only [newSLOf, hb]
  split_ifs <;> first | exact le_refl _ | linarith

theorem newSLOf_le_sell {tr : TrailingEntry} {pos : Position} {p : ℚ}
    (hb : pos.type ≠ "BUY") : newSLOf tr pos p ≤ pos.stop_loss := by
  simp only [newSLOf, hb]
  split_ifs <;> first | exact le_refl _ | linarith | simp_all

end ComfyTrade

namespace ComfyTrade

theorem stepPos_type (pos : Position) (tr : TrailingEntry) (p : ℚ) :
    (stepPos pos tr p).1.type = pos.type := by
  rcases h : calcForEntry tr { pos with current_price := p } p with ⟨a, tr2⟩
  cases a <;> simp [stepPos, h]

theorem stepPos_sl_buy (pos : Position) (tr : TrailingEntry) (p : ℚ)
    (hb : pos.type = "BUY") : pos.stop_loss ≤ (stepPos pos tr p).1.stop_loss := by
  rcases h : calcForEntry tr { pos with current_price := p } p with ⟨a, tr2⟩
  cases a with
  | none => simp [stepPos, h]
  | some adj =>
    have hb' : ({ pos with current_price := p } : Position).type = "BUY" := hb
    have h3 := calcAfterGate_some (calcForEntry_some h)
    have h4 : ({ pos with current_price := p } : Position).stop_loss ≤
        newSLOf tr { pos with current_price := p } p := newSLOf_ge_buy hb'
    simp only [stepPos, h]
    rw [h3.2.1]
    exact h4

theorem stepPos_sl_sell (pos : Position) (tr : TrailingEntry) (p : ℚ)
    (hb : pos.type ≠ "BUY") : (stepPos pos tr p).1.stop_loss ≤ pos.stop_loss := by
  rcases h : calcForEntry tr { pos with current_price := p } p with ⟨a, tr2⟩
  cases a with
  | none => simp [stepPos, h]
  | some adj =>
    have hb' : ({ pos with current_price := p } : Position).type ≠ "BUY" := hb
    have h3 := calcAfterGate_some (calcForEntry_some h)
    have h4 : newSLOf tr { pos with current_price := p } p ≤
        ({ pos with current_price := p } : Position).stop_loss := newSLOf_le_sell hb'
    simp only [stepPos, h]
    rw [h3.2.1]
    exact h4

theorem slTrace_chain_buy (ps : List ℚ) : ∀ pos tr, pos.type = "BUY" →
    List.Chain' (fun a b => a ≤ b) (pos.stop_loss :: slTrace pos tr ps) := by
  induction ps with
  | nil =>
    intro pos tr _
    simp [slTrace]
  | cons p ps ih =>
    intro pos tr hb
    have h1 := stepPos_sl_buy pos tr p hb
    have h2 := ih (stepPos pos tr p).1 (stepPos pos tr p).2
      (by rw [stepPos_type]; exact hb)
    simp only [slTrace]
    exact List.chain'_cons.mpr ⟨h1, h2⟩

theorem slTrace_chain_sell (ps : List ℚ) : ∀ pos tr, pos.type ≠ "BUY" →
    List.Chain' (fun a b => b ≤ a) (pos.stop_loss :: slTrace pos tr ps) := by
  induction ps with
  | nil =>
    intro pos tr _
    simp [slTrace]
  | cons p ps ih =>
    intro pos tr hb
    have h1 := stepPos_sl_sell pos tr p hb
    have h2 := ih (stepPos pos tr p).1 (stepPos pos tr p).2
      (by rw [stepPos_type]; exact hb)
    simp only [slTrace]
    exact List.chain'_cons.mpr ⟨h1, h2⟩

/-- C1 (SL ratchet): any adjustment produced by `calculateNewSLTP` for a BUY
position adopts the candidate `currentPrice - slDistance` exactly when it is
above the position's current stop-loss and keeps the current stop-loss
otherwise, so its stop-loss never decreases; symmetrically, for a SELL
position the candidate `currentPrice + slDistance` is adopted exactly when it
is below the current stop-loss, so its stop-loss never increases.
Consequently over repeated cycles (any price sequence, in particular a
monotonically increasing one) a long position's stop-loss trace is
non-decreasing and a short position's is non-increasing. -/
theorem sl_ratchet_monotone :
    (∀ tr tr' pos p adj, calcForEntry tr pos p = (some adj, tr') → pos.type = "BUY" →
       (0 < slDistanceOf tr p →
          adj.stopLoss = if pos.stop_loss < p - slDistanceOf tr p then p - slDistanceOf tr p
            else pos.stop_loss)
       ∧ pos.stop_loss ≤ adj.stopLoss)
    ∧ (∀ tr tr' pos p adj, calcForEntry tr pos p = (some adj, tr') → pos.type = "SELL" →
       (0 < slDistanceOf tr p →
          adj.stopLoss = if p + slDistanceOf tr p < pos.stop_loss then p + slDistanceOf tr p
            else pos.stop_loss)
       ∧ adj.stopLoss ≤ pos.stop_loss)
    ∧ (∀ ps pos tr, pos.type = "BUY" →
       List.Chain' (fun a b => a ≤ b) (pos.stop_loss :: slTrace pos tr ps))
    ∧ (∀ ps pos tr, pos.type = "SELL" →
       List.Chain' (fun a b => b ≤ a) (pos.stop_loss :: slTrace pos tr ps)) := by
  refine ⟨?_, ?_, ?_, ?_⟩
  · intro tr tr' pos p adj h hb
    have h3 := calcAfterGate_some (calcForEntry_some h)
    constructor
    · intro hd
      rw [h3.2.1, newSLOf_buy hb hd]
    · rw [h3.2.1]
      exact newSLOf_ge_buy hb
  · intro tr tr' pos p adj h hs
    have hb : pos.type ≠ "BUY" := by simp [hs]
    have h3 := calcAfterGate_some (calcForEntry_some h)
    constructor
    · intro hd
      rw [h3.2.1, newSLOf_sell hb hd]
    · rw [h3.2.1]
      exact newSLOf_le_sell hb
  · intro ps pos tr hb
    exact slTrace_chain_buy ps pos tr hb
  · intro ps pos tr hs
    exact slTrace_chain_sell ps pos tr (by simp [hs])

def posW1 : Position := ⟨1, "BUY", 100, 90, 0⟩

def trW1 : TrailingEntry := ⟨1, 5, 0, 0, 0, 0, none, false, 0, true⟩

def trW1x : TrailingEntry := ⟨1, 5, 0, 0, 0, 0, none, false, 100, true⟩

def adjW1 : Adjustment := ⟨1, 95, 0, 100⟩

def posW2 : Position := ⟨2, "SELL", 100, 0, 0⟩

theorem sl_ratchet_monotone_witness :
    posW1.stop_loss ≤ adjW1.stopLoss
    ∧ List.Chain' (fun a b => a ≤ b) (posW1.stop_loss :: slTrace posW1 trW1 [100, 101])
    ∧ List.Chain' (fun a b => b ≤ a) (posW2.stop_loss :: slTrace posW2 trW1 [100, 99]) := by
  refine ⟨(sl_ratchet_monotone.1 trW1 trW1x posW1 100 adjW1 ?_ rfl).2,
    sl_ratchet_monotone.2.2.1 [100, 101] posW1 trW1 rfl,
    sl_ratchet_monotone.2.2.2 [100, 99] posW2 trW1 rfl⟩
  norm_num [calcForEntry, calcAfterGate, newSLOf, newTPAndFixed, slDistanceOf, tpDistanceOf,
    fixedTPInvalid, triggerReached, trW1, trW1x, posW1, adjW1]

end ComfyTrade

namespace ComfyTrade

/-! ### Loop step equations and `recordModify` facts -/

theorem recordModify_state (modify : Nat → ℚ → ℚ → ModifyOutcome) (adj : Adjustment)
    (r : LoopOut) : (recordModify modify adj r).state = r.state := by
  cases h : modify adj.ticket adj.stopLoss adj.takeProfit <;> simp [recordModify, h]

theorem recordModify_calls (modify : Nat → ℚ → ℚ → ModifyOutcome) (adj : Adjustment)
    (r : LoopOut) : (recordModify modify adj r).calls = adj :: r.calls := by
  cases h : modify adj.ticket adj.stopLoss adj.takeProfit <;> simp [recordModify, h]

theorem recordModify_failed (modify : Nat → ℚ → ℚ → ModifyOutcome) (adj : Adjustment)
    (r : LoopOut) : (recordModify modify adj r).failed =
      (failMsgOf (modify adj.ticket adj.stopLoss adj.takeProfit) adj.ticket).toList
        ++ r.failed := by
  cases h : modify adj.ticket adj.stopLoss adj.takeProfit <;>
    simp [recordModify, failMsgOf, h]

theorem recordModify_adjusted (modify : Nat → ℚ → ℚ → ModifyOutcome) (adj : Adjustment)
    (r : LoopOut) : (recordModify modify adj r).adjusted =
      (if isOkFor modify adj = true then 1 else 0) + r.adjusted := by
  cases h : modify adj.ticket adj.stopLoss adj.takeProfit <;>
    simp [recordModify, isOkFor, h, Nat.add_comm]

theorem adjustLoop_nil (tickets : List Nat) (modify : Nat → ℚ → ℚ → ModifyOutcome)
    (st : List (Nat × TrailingEntry)) : adjustLoop tickets modify st [] = ⟨st, 0, [], []⟩ :=
  rfl

theorem adjustLoop_cons_not_tracked {tickets : List Nat}
    {modify : Nat → ℚ → ℚ → ModifyOutcome} {st : List (Nat × TrailingEntry)}
    {pos : Position} {rest : List Position} (h : pos.ticket ∉ tickets) :
    adjustLoop tickets modify st (pos :: rest) = adjustLoop tickets modify st rest := by
  simp [adjustLoop, h]

theorem adjustLoop_cons_no_entry {tickets : List Nat}
    {modify : Nat → ℚ → ℚ → ModifyOutcome} {st : List (Nat × TrailingEntry)}
    {pos : Position} {rest : List Position} (h : pos.ticket ∈ tickets)
    (hl : lookupTicket st pos.ticket = none) :
    adjustLoop tickets modify st (pos :: rest) = adjustLoop tickets modify st rest := by
  simp [adjustLoop, h, hl]

theorem adjustLoop_cons_null {tickets : List Nat}
    {modify : Nat → ℚ → ℚ → ModifyOutcome} {st : List (Nat × TrailingEntry)}
    {pos : Position} {rest : List Position} {tr tr' : TrailingEntry}
    (h : pos.ticket ∈ tickets) (hl : lookupTicket st pos.ticket = some tr)
    (hc : calcForEntry tr pos pos.current_price = (none, tr')) :
    adjustLoop tickets modify st (pos :: rest) =
      adjustLoop tickets modify (setTicket st pos.ticket tr') rest := by
  simp [adjustLoop, h, hl, hc]

theorem adjustLoop_cons_adj {tickets : List Nat}
    {modify : Nat → ℚ → ℚ → ModifyOutcome} {st : List (Nat × TrailingEntry)}
    {pos : Position} {rest : List Position} {tr tr' : TrailingEntry} {adj : Adjustment}
    (h : pos.ticket ∈ tickets) (hl : lookupTicket st pos.ticket = some tr)
    (hc : calcForEntry tr pos pos.current_price = (some adj, tr')) :
    adjustLoop tickets modify st (pos :: rest) =
      recordModify modify adj
        (adjustLoop tickets modify (setTicket st pos.ticket tr') rest) := by
  simp [adjustLoop, h, hl, hc]

end ComfyTrade

namespace ComfyTrade

theorem calcForEntry_ticket {tr tr' : TrailingEntry} {pos : Position} {p : ℚ}
    {adj : Adjustment} (h : calcForEntry tr pos p = (some adj, tr')) :
    adj.ticket = pos.ticket :=
  (calcAfterGate_some (calcForEntry_some h)).1

/-- While a ticket's entry is trigger-gated for every position carrying that
ticket this cycle, the loop leaves the entry untouched and issues no modify
call for that ticket. -/
theorem adjustLoop_gated (tickets : List Nat) (modify : Nat → ℚ → ℚ → ModifyOutcome)
    (t : Nat) (tr : TrailingEntry) (htp : 0 < tr.triggerPrice) :
    ∀ (ps : List Position) (st : List (Nat × TrailingEntry)),
      lookupTicket st t = some tr →
      (∀ pos ∈ ps, pos.ticket = t → triggerReached pos tr pos.current_price = false) →
      lookupTicket (adjustLoop tickets modify st ps).state t = some tr ∧
      ∀ adj ∈ (adjustLoop tickets modify st ps).calls, adj.ticket ≠ t := by
  intro ps
  induction ps with
  | nil =>
    intro st hl _
    exact ⟨hl, by simp [adjustLoop_nil]⟩
  | cons pos rest ih =>
    intro st hl hg
    have hgrest : ∀ q ∈ rest, q.ticket = t → triggerReached q tr q.current_price = false :=
      fun q hq => hg q (List.mem_cons_of_mem _ hq)
    by_cases hmem : pos.ticket ∈ tickets
    · by_cases heq : pos.ticket = t
      · have hl' : lookupTicket st pos.ticket = some tr := by rw [heq]; exact hl
        have hreach : triggerReached pos tr pos.current_price = false :=
          hg pos (List.mem_cons_self pos rest) heq
        have hcalc : calcForEntry tr pos pos.current_price = (none, tr) :=
          calcForEntry_gate htp hreach
        have hset : lookupTicket (setTicket st pos.ticket tr) t = some tr := by
          rw [heq]
          exact lookupTicket_setTicket_self st t tr
        rw [adjustLoop_cons_null hmem hl' hcalc]
        exact ih (setTicket st pos.ticket tr) hset hgrest
      · cases hlp : lookupTicket st pos.ticket with
        | none =>
          rw [adjustLoop_cons_no_entry hmem hlp]
          exact ih st hl hgrest
        | some trp =>
          rcases hc : calcForEntry trp pos pos.current_price with ⟨a, trp'⟩
          have hset : lookupTicket (setTicket st pos.ticket trp') t = some tr := by
            rw [lookupTicket_setTicket_ne st trp' heq]
            exact hl
          have hrec := ih (setTicket st pos.ticket trp') hset hgrest
          cases a with
          | none =>
            rw [adjustLoop_cons_null hmem hlp hc]
            exact hrec
          | some adj =>
            have hadj : adj.ticket = pos.ticket := calcForEntry_ticket hc
            rw [adjustLoop_cons_adj hmem hlp hc]
            refine ⟨by rw [recordModify_state]; exact hrec.1, ?_⟩
            intro x hx
            rw [recordModify_calls] at hx
            rcases List.mem_cons.mp hx with hx | hx
            · subst hx
              rw [hadj]
              exact heq
            · exact hrec.2 x hx
    · rw [adjustLoop_cons_not_tracked hmem]
      exact ih st hl hgrest

/-- C2 (trigger-price gating): with a positive `triggerPrice` not yet reached
in the favorable direction (for BUY, `currentPrice < triggerPrice`; for a
non-BUY side, `currentPrice > triggerPrice`), `calculateNewSLTP` returns null
and leaves the entry untouched, and an adjustment cycle issues zero
`modifyPosition` calls for that ticket; once the trigger is reached — and
always when `triggerPrice` is `0` — the post-gate computation runs. -/
theorem trigger_gating :
    (∀ tr pos p, 0 < tr.triggerPrice → triggerReached pos tr p = false →
       calculateNewSLTP (some tr) pos p = (none, some tr))
    ∧ (∀ tr pos p, tr.enabled = true → tr.triggerPrice = 0 →
       calcForEntry tr pos p = calcAfterGate tr pos p)
    ∧ (∀ tr pos p, tr.enabled = true → triggerReached pos tr p = true →
       calcForEntry tr pos p = calcAfterGate tr pos p)
    ∧ (∀ api flag res modify s t tr,
       lookupTicket s.trailingPositions t = some tr → 0 < tr.triggerPrice →
       (∀ pos ∈ (res.data.getD []), pos.ticket = t →
          triggerReached pos tr pos.current_price = false) →
       ∀ adj ∈ (adjustAllPositions api flag res modify s).2.calls, adj.ticket ≠ t) := by
  refine ⟨?_, ?_, ?_, ?_⟩
  · intro tr pos p htp hr
    simp [calculateNewSLTP, calcForEntry_gate htp hr]
  · intro tr pos p he h0
    exact calcForEntry_active he (Or.inl h0)
  · intro tr pos p he hr
    exact calcForEntry_active he (Or.inr hr)
  · intro api flag res modify s t tr hl htp hg
    simp only [adjustAllPositions]
    split_ifs with h1
    · simp
    · rcases res with ⟨su, da⟩
      cases su
      · simp
      · cases da with
        | none => simp
        | some data =>
          simp only
          intro adj hadj
          refine (adjustLoop_gated (s.trailingPositions.map Prod.fst) modify t tr htp
            data s.trailingPositions hl ?_).2 adj hadj
          intro pos hpos
          exact hg pos (by simpa using hpos)

def trG : TrailingEntry := ⟨9, 5, 0, 0, 0, 120, none, false, 0, true⟩

def posG : Position := ⟨9, "BUY", 100, 0, 0⟩

def stG : ManagerState := ⟨[(9, trG)], none, 0⟩

def mOkG : Nat → ℚ → ℚ → ModifyOutcome := fun _ _ _ => ModifyOutcome.ok

theorem trigger_gating_witness :
    calculateNewSLTP (some trG) posG 100 = (none, some trG)
    ∧ calcForEntry trW1 posW1 100 = calcAfterGate trW1 posW1 100
    ∧ ∀ adj ∈ (adjustAllPositions true (some true) ⟨true, some [posG]⟩ mOkG stG).2.calls,
        adj.ticket ≠ 9 := by
  refine ⟨trigger_gating.1 trG posG 100 (by norm_num [trG]) ?_,
    trigger_gating.2.1 trW1 posW1 100 rfl rfl,
    trigger_gating.2.2.2 true (some true) ⟨true, some [posG]⟩ mOkG stG 9 trG
      (by norm_num [stG, lookupTicket]) (by norm_num [trG]) ?_⟩
  · norm_num [triggerReached, posG, trG]
  · intro pos hpos hpt
    have hp : pos = posG := by simpa using hpos
    subst hp
    norm_num [triggerReached, posG, trG]

end ComfyTrade

namespace ComfyTrade

theorem calcAfterGate_entry (tr : TrailingEntry) (pos : Position) (p : ℚ) :
    (calcAfterGate tr pos p).2 =
      { tr with fixedTP := (newTPAndFixed tr pos p).2, lastPrice := p } := by
  simp only [calcAfterGate]
  split_ifs <;> rfl

theorem newTPAndFixed_pinned {tr : TrailingEntry} {f : ℚ} (pos : Position) (p : ℚ)
    (hm : tr.trailSLOnly = true) (hf : tr.fixedTP = some f) (hpos : 0 < f) :
    newTPAndFixed tr pos p = (f, some f) := by
  simp [newTPAndFixed, hm, hf, hpos]

/-- One `calculateNewSLTP` cycle preserves a positive pinned `fixedTP` and
stamps it on any adjustment it returns. -/
theorem calcForEntry_tp_pin {tr tr' : TrailingEntry} {pos : Position} {p : ℚ}
    {a : Option Adjustment} {f : ℚ} (hm : tr.trailSLOnly = true)
    (hf : tr.fixedTP = some f) (hpos : 0 < f)
    (h : calcForEntry tr pos p = (a, tr')) :
    tr'.trailSLOnly = true ∧ tr'.fixedTP = some f ∧
      ∀ adj, a = some adj → adj.takeProfit = f := by
  simp only [calcForEntry] at h
  split_ifs at h with h1 h2
  · obtain ⟨ha, htr⟩ := Prod.mk.injEq .. ▸ h
    subst htr
    exact ⟨hm, hf, fun adj hadj => absurd (ha ▸ hadj) (by simp)⟩
  · obtain ⟨ha, htr⟩ := Prod.mk.injEq .. ▸ h
    subst htr
    exact ⟨hm, hf, fun adj hadj => absurd (ha ▸ hadj) (by simp)⟩
  · have hent : tr' = { tr with fixedTP := (newTPAndFixed tr pos p).2, lastPrice := p } := by
      rw [← calcAfterGate_entry tr pos p, h]
    rw [newTPAndFixed_pinned pos p hm hf hpos] at hent
    refine ⟨by rw [hent]; exact hm, by rw [hent], ?_⟩
    intro adj hadj
    subst hadj
    have hsome : calcAfterGate tr pos p = (some adj, tr') := by
      rw [h]
    have := (calcAfterGate_some hsome).2.2.1
    rw [newTPAndFixed_pinned pos p hm hf hpos] at this
    exact this

theorem runEntryCycles_tp_pin {f : ℚ} :
    ∀ (cs : List (Position × ℚ)) (tr : TrailingEntry),
      tr.trailSLOnly = true → tr.fixedTP = some f → 0 < f →
      (∀ adj ∈ (runEntryCycles tr cs).1, adj.takeProfit = f) ∧
        (runEntryCycles tr cs).2.fixedTP = some f := by
  intro cs
  induction cs with
  | nil =>
    intro tr _ hf _
    exact ⟨by simp [runEntryCycles], hf⟩
  | cons c rest ih =>
    intro tr hm hf hpos
    obtain ⟨pos, p⟩ := c
    rcases hc : calcForEntry tr pos p with ⟨a, tr'⟩
    have hstep := calcForEntry_tp_pin hm hf hpos hc
    have hrec := ih tr' hstep.1 hstep.2.1 hpos
    cases a with
    | none =>
      constructor
      · intro adj hadj
        refine hrec.1 adj ?_
        simpa [runEntryCycles, hc] using hadj
      · simpa [runEntryCycles, hc] using hrec.2
    | some adj =>
      constructor
      · intro x hx
        rw [show runEntryCycles tr ((pos, p) :: rest) =
            (adj :: (runEntryCycles tr' rest).1, (runEntryCycles tr' rest).2) by
          simp [runEntryCycles, hc]] at hx
        rcases List.mem_cons.mp hx with hx | hx
        · subst hx
          exact hstep.2.2 x rfl
        · exact hrec.1 x hx
      · simpa [runEntryCycles, hc] using hrec.2

/-- C3 (fixed TP pin): enabling trailing with `trailSLOnly` while connected
captures `fixedTP` once, from the live take-profit of the matching open
position; when that captured value is positive, every adjustment any later
sequence of cycles produces for the entry carries exactly that take-profit,
and the entry's `fixedTP` never changes. -/
theorem fixed_tp_pin :
    ∀ (api conn : Bool) (res : GetPositionsResult) (ticket : Nat)
      (settings : TrailingSettings) (s : ManagerState) (data : List Position)
      (pos : Position) (t : ℚ) (cycles : List (Position × ℚ)),
      settings.trailSLOnly = true → api = true → conn = true →
      res.success = true → res.data = some data →
      data.find? (fun q => q.ticket == ticket) = some pos →
      pos.take_profit = t → 0 < t →
      capturedFixedTP api conn res ticket settings.trailSLOnly = some t
      ∧ lookupTicket (enableTrailing api conn res ticket settings s).trailingPositions ticket
          = some (entryFor ticket settings (some t))
      ∧ (∀ adj ∈ (runEntryCycles (entryFor ticket settings (some t)) cycles).1,
          adj.takeProfit = t)
      ∧ (runEntryCycles (entryFor ticket settings (some t)) cycles).2.fixedTP = some t := by
  intro api conn res ticket settings s data pos t cycles hm hapi hconn hsu hda hfind htp hpos
  subst hapi
  subst hconn
  subst htp
  have hcap : capturedFixedTP true true res ticket settings.trailSLOnly
      = some pos.take_profit := by
    rcases res with ⟨su, da⟩
    simp only at hsu hda
    subst hsu
    subst hda
    simp [capturedFixedTP, hm, hfind]
  have hpin := runEntryCycles_tp_pin cycles (entryFor ticket settings (some pos.take_profit))
    (by simp [entryFor, hm]) rfl hpos
  refine ⟨hcap, ?_, hpin.1, hpin.2⟩
  simp only [enableTrailing, hcap]
  exact lookupTicket_setTicket_self s.trailingPositions ticket _

def resC3 : GetPositionsResult := ⟨true, some [⟨5, "BUY", 2, 0, 6/5⟩]⟩

def settingsC3 : TrailingSettings := ⟨1, 0, 0, 0, 0, true, 2⟩

def stC3 : ManagerState := ⟨[], none, 0⟩

theorem fixed_tp_pin_witness :
    lookupTicket (enableTrailing true true resC3 5 settingsC3 stC3).trailingPositions 5
      = some (entryFor 5 settingsC3 (some (6/5)))
    ∧ (∀ adj ∈ (runEntryCycles (entryFor 5 settingsC3 (some (6/5)))
        [(⟨5, "BUY", 3, 0, 6/5⟩, 3)]).1, adj.takeProfit = 6/5) := by
  have h := fixed_tp_pin true true resC3 5 settingsC3 stC3 [⟨5, "BUY", 2, 0, 6/5⟩]
    ⟨5, "BUY", 2, 0, 6/5⟩ (6/5) [(⟨5, "BUY", 3, 0, 6/5⟩, 3)]
    rfl rfl rfl rfl (by norm_num [resC3]) (by norm_num [List.find?]) rfl (by norm_num)
  exact ⟨h.2.1, h.2.2.1⟩

end ComfyTrade

namespace ComfyTrade

/-- Convenient unfolding of a connected `adjustAllPositions` cycle with a
successful position fetch. -/
theorem adjustAllPositions_connected (res : GetPositionsResult)
    (modify : Nat → ℚ → ℚ → ModifyOutcome) (s : ManagerState) (data : List Position)
    (hsu : res.success = true) (hda : res.data = some data) :
    adjustAllPositions true (some true) res modify s =
      ({ s with
          trailingPositions :=
            (adjustLoop (s.trailingPositions.map Prod.fst) modify s.trailingPositions data).state
          saveCount := s.saveCount + 1 },
       ⟨(adjustLoop (s.trailingPositions.map Prod.fst) modify s.trailingPositions data).adjusted,
        (adjustLoop (s.trailingPositions.map Prod.fst) modify s.trailingPositions data).failed,
        (adjustLoop (s.trailingPositions.map Prod.fst) modify s.trailingPositions data).calls,
        true⟩) := by
  rcases res with ⟨su, da⟩
  simp only at hsu hda
  subst hsu
  subst hda
  simp [adjustAllPositions]

def tr4 : TrailingEntry := ⟨7, 10, 0, 10, 0, 0, none, false, 0, true⟩

def pos4 : Position := ⟨7, "BUY", 100, 90, 110⟩

def st4 : ManagerState := ⟨[(7, tr4)], none, 0⟩

def mOk4 : Nat → ℚ → ℚ → ModifyOutcome := fun _ _ _ => ModifyOutcome.ok

/-- C4 counterexample: with `trailSLOnly` disabled (`slDistance = 10`,
`tpDistance = 10`) and a BUY position at price 100 whose stop-loss is already
90 and take-profit already 110, the computed SL (100-10) and TP (100+10)
both equal the current values, yet the connected cycle still issues one
`modifyPosition` call carrying those unchanged values — refuting the claim
that a cycle never issues a modify call when neither value changed. -/
theorem noop_suppression_counterexample :
    pos4.stop_loss = 90 ∧ pos4.take_profit = 110
    ∧ (adjustAllPositions true (some true) ⟨true, some [pos4]⟩ mOk4 st4).2.calls
        = [⟨7, 90, 110, 100⟩] := by
  refine ⟨rfl, rfl, ?_⟩
  norm_num [adjustAllPositions, adjustLoop, recordModify, lookupTicket, setTicket,
    calcForEntry, calcAfterGate, newSLOf, newTPAndFixed, slDistanceOf, tpDistanceOf,
    fixedTPInvalid, triggerReached, pos4, tr4, st4, mOk4]

/-- C4 amended: the no-op suppression exists only in `trailSLOnly` mode —
there, when the computed stop-loss equals the position's current stop-loss,
`calculateNewSLTP` returns null (no modify call is issued even if the TP
would differ), and hence any adjustment returned in that mode carries a
stop-loss different from the current one; outside `trailSLOnly` mode a
modify call may be issued with both values unchanged (see the
counterexample). -/
theorem noop_suppression_trailSLOnly :
    ∀ tr pos p, tr.trailSLOnly = true →
      (newSLOf tr pos p = pos.stop_loss → (calcAfterGate tr pos p).1 = none)
      ∧ ∀ adj tr', calcAfterGate tr pos p = (some adj, tr') →
          adj.stopLoss ≠ pos.stop_loss := by
  intro tr pos p hm
  refine ⟨fun hs => calcAfterGate_suppress hm hs, ?_⟩
  intro adj tr' h
  have h3 := calcAfterGate_some h
  rw [h3.2.1]
  intro hcon
  have hnone := calcAfterGate_suppress hm hcon
  rw [h] at hnone
  simp at hnone

def trW4 : TrailingEntry := ⟨8, 5, 0, 0, 0, 0, some 1, true, 0, true⟩

def posW4 : Position := ⟨8, "BUY", 100, 95, 2⟩

theorem noop_suppression_trailSLOnly_witness :
    (calcAfterGate trW4 posW4 100).1 = none := by
  refine (noop_suppression_trailSLOnly trW4 posW4 100 rfl).1 ?_
  norm_num [newSLOf, slDistanceOf, trW4, posW4]

def tr5 : TrailingEntry := ⟨1, 5, 0, 0, 0, 0, none, false, 0, true⟩

def tr5b : TrailingEntry := ⟨2, 5, 0, 0, 0, 0, none, false, 0, true⟩

def pos5 : Position := ⟨1, "BUY", 100, 0, 0⟩

def st5 : ManagerState := ⟨[(1, tr5), (2, tr5b)], none, 0⟩

def res5 : GetPositionsResult := ⟨true, some [pos5]⟩

def mOk5 : Nat → ℚ → ℚ → ModifyOutcome := fun _ _ _ => ModifyOutcome.ok

/-- C5 counterexample: a connected adjustment cycle (`adjustAllPositions`,
the body of the fixed-interval trailing cycle) completes with ticket 2 still
tracked even though the bridge reported only ticket 1 open — the cycle
performs no removal pass, so afterwards the tracked set is not a subset of
the bridge's open tickets. -/
theorem cycle_reconciliation_counterexample :
    (adjustAllPositions true (some true) res5 mOk5 st5).2.fetched = true
    ∧ (lookupTicket
        (adjustAllPositions true (some true) res5 mOk5 st5).1.trailingPositions 2).isSome = true
    ∧ 2 ∉ (res5.data.getD []).map Position.ticket := by
  refine ⟨?_, ?_, ?_⟩
  · norm_num [adjustAllPositions, res5]
  · norm_num [adjustAllPositions, adjustLoop, recordModify, lookupTicket, setTicket,
      calcForEntry, calcAfterGate, newSLOf, newTPAndFixed, slDistanceOf, tpDistanceOf,
      fixedTPInvalid, triggerReached, pos5, tr5, tr5b, st5, res5, mOk5]
  · norm_num [res5, pos5]

theorem cleanup_fold_mem (opens : List Nat) :
    ∀ (l : List Nat) (m : List (Nat × TrailingEntry)) (kv : Nat × TrailingEntry),
      kv ∈ l.foldl (fun acc t => if t ∈ opens then acc else deleteTicket acc t) m →
      kv ∈ m ∧ (kv.1 ∈ l → kv.1 ∈ opens) := by
  intro l
  induction l with
  | nil =>
    intro m kv h
    rw [List.foldl_nil] at h
    exact ⟨h, fun hk => absurd hk (List.not_mem_nil _)⟩
  | cons t l ih =>
    intro m kv h
    rw [List.foldl_cons] at h
    by_cases ht : t ∈ opens
    · rw [if_pos ht] at h
      have hrec := ih m kv h
      refine ⟨hrec.1, ?_⟩
      intro hk
      rcases List.mem_cons.mp hk with hk | hk
      · rw [hk]
        exact ht
      · exact hrec.2 hk
    · rw [if_neg ht] at h
      have hrec := ih (deleteTicket m t) kv h
      have hmem := mem_deleteTicket.mp hrec.1
      refine ⟨hmem.1, ?_⟩
      intro hk
      rcases List.mem_cons.mp hk with hk | hk
      · exact absurd hk hmem.2
      · exact hrec.2 hk

/-- C5 amended: the reconciliation lives in `cleanup` (invoked from the
positions-refresh hook, not from the adjustment cycle): a connected `cleanup`
whose fetch succeeds only ever removes entries, and afterwards every tracked
ticket is among the bridge's open-position tickets; the adjustment cycle
itself leaves stale tickets tracked (see the counterexample). -/
theorem cleanup_reconciliation :
    ∀ (res : GetPositionsResult) (s : ManagerState) (data : List Position),
      res.success = true → res.data = some data →
      ∀ kv ∈ (cleanup true (some true) res s).trailingPositions,
        kv ∈ s.trailingPositions ∧ kv.1 ∈ data.map Position.ticket := by
  intro res s data hsu hda kv hkv
  rcases res with ⟨su, da⟩
  simp only at hsu hda
  subst hsu
  subst hda
  simp only [cleanup, Option.getD_some] at hkv
  rw [if_neg (by simp)] at hkv
  have h := cleanup_fold_mem (data.map Position.ticket)
    (s.trailingPositions.map Prod.fst) s.trailingPositions kv hkv
  exact ⟨h.1, h.2 (List.mem_map_of_mem Prod.fst h.1)⟩

theorem cleanup_reconciliation_witness :
    (1, tr5) ∈ st5.trailingPositions
    ∧ (1 : Nat) ∈ ((res5.data.getD []).map Position.ticket) := by
  have h := cleanup_reconciliation res5 st5 [pos5] rfl rfl (1, tr5) ?_
  · exact ⟨h.1, by simpa [res5] using h.2⟩
  · norm_num [cleanup, deleteTicket, st5, res5, pos5, tr5, tr5b]

end ComfyTrade

namespace ComfyTrade

theorem adjustLoop_indep (tickets : List Nat)
    (modify modify' : Nat → ℚ → ℚ → ModifyOutcome) :
    ∀ (ps : List Position) (st : List (Nat × TrailingEntry)),
      (adjustLoop tickets modify st ps).state = (adjustLoop tickets modify' st ps).state
      ∧ (adjustLoop tickets modify st ps).calls = (adjustLoop tickets modify' st ps).calls := by
  intro ps
  induction ps with
  | nil =>
    intro st
    exact ⟨rfl, rfl⟩
  | cons pos rest ih =>
    intro st
    by_cases hmem : pos.ticket ∈ tickets
    · cases hlp : lookupTicket st pos.ticket with
      | none =>
        rw [adjustLoop_cons_no_entry hmem hlp, adjustLoop_cons_no_entry hmem hlp]
        exact ih st
      | some tr =>
        rcases hc : calcForEntry tr pos pos.current_price with ⟨a, tr'⟩
        cases a with
        | none =>
          rw [adjustLoop_cons_null hmem hlp hc, adjustLoop_cons_null hmem hlp hc]
          exact ih (setTicket st pos.ticket tr')
        | some adj =>
          rw [adjustLoop_cons_adj hmem hlp hc, adjustLoop_cons_adj hmem hlp hc]
          have hrec := ih (setTicket st pos.ticket tr')
          rw [recordModify_state, recordModify_state, recordModify_calls,
            recordModify_calls, hrec.2]
          exact ⟨hrec.1, rfl⟩
    · rw [adjustLoop_cons_not_tracked hmem, adjustLoop_cons_not_tracked hmem]
      exact ih st

theorem adjustLoop_failed_adjusted (tickets : List Nat)
    (modify : Nat → ℚ → ℚ → ModifyOutcome) :
    ∀ (ps : List Position) (st : List (Nat × TrailingEntry)),
      (adjustLoop tickets modify st ps).failed =
        (adjustLoop tickets modify st ps).calls.filterMap
          (fun adj => failMsgOf (modify adj.ticket adj.stopLoss adj.takeProfit) adj.ticket)
      ∧ (adjustLoop tickets modify st ps).adjusted =
        ((adjustLoop tickets modify st ps).calls.filter (isOkFor modify)).length := by
  intro ps
  induction ps with
  | nil =>
    intro st
    exact ⟨rfl, rfl⟩
  | cons pos rest ih =>
    intro st
    by_cases hmem : pos.ticket ∈ tickets
    · cases hlp : lookupTicket st pos.ticket with
      | none =>
        rw [adjustLoop_cons_no_entry hmem hlp]
        exact ih st
      | some tr =>
        rcases hc : calcForEntry tr pos pos.current_price with ⟨a, tr'⟩
        cases a with
        | none =>
          rw [adjustLoop_cons_null hmem hlp hc]
          exact ih (setTicket st pos.ticket tr')
        | some adj =>
          rw [adjustLoop_cons_adj hmem hlp hc]
          have hrec := ih (setTicket st pos.ticket tr')
          rw [recordModify_failed, recordModify_calls, recordModify_adjusted, hrec.1, hrec.2]
          constructor
          · cases hm : modify adj.ticket adj.stopLoss adj.takeProfit <;>
              simp [failMsgOf, hm, List.filterMap_cons]
          · cases hm : modify adj.ticket adj.stopLoss adj.takeProfit <;>
              simp [isOkFor, hm, List.filter_cons, Nat.add_comm]
    · rw [adjustLoop_cons_not_tracked hmem]
      exact ih st

/-- C6 (per-ticket failure isolation): in a connected cycle, which modify
calls are issued, the resulting tracked state, and the save all do not depend
on the modify outcomes at all (so one ticket's rejection or thrown error never
prevents the others' calls, and no backoff state exists); the cycle's `failed`
list is exactly one `Ticket <t>: <msg>` entry per non-successful call, in
order, and `adjusted` counts exactly the successful calls.  The retry policy
is the next fixed-interval cycle (`updateInterval` = 300000 ms). -/
theorem modify_failure_isolation :
    ∀ (res : GetPositionsResult) (modify modify' : Nat → ℚ → ℚ → ModifyOutcome)
      (s : ManagerState) (data : List Position),
      res.success = true → res.data = some data →
      ((adjustAllPositions true (some true) res modify s).1
          = (adjustAllPositions true (some true) res modify' s).1
        ∧ (adjustAllPositions true (some true) res modify s).2.calls
          = (adjustAllPositions true (some true) res modify' s).2.calls)
      ∧ (adjustAllPositions true (some true) res modify s).2.failed
          = (adjustAllPositions true (some true) res modify s).2.calls.filterMap
              (fun adj => failMsgOf (modify adj.ticket adj.stopLoss adj.takeProfit) adj.ticket)
      ∧ (adjustAllPositions true (some true) res modify s).2.adjusted
          = ((adjustAllPositions true (some true) res modify s).2.calls.filter
              (isOkFor modify)).length
      ∧ updateInterval = 300000 := by
  intro res modify modify' s data hsu hda
  rw [adjustAllPositions_connected res modify s data hsu hda,
    adjustAllPositions_connected res modify' s data hsu hda]
  have hind := adjustLoop_indep (s.trailingPositions.map Prod.fst) modify modify'
    data s.trailingPositions
  have hfa := adjustLoop_failed_adjusted (s.trailingPositions.map Prod.fst) modify
    data s.trailingPositions
  exact ⟨⟨by simp [hind.1], hind.2⟩, hfa.1, hfa.2, rfl⟩

def mRej6 : Nat → ℚ → ℚ → ModifyOutcome := fun t _ _ =>
  if t = 1 then ModifyOutcome.rejected "broker says no" else ModifyOutcome.ok

def st6 : ManagerState := ⟨[(1, tr5), (2, tr5b)], none, 0⟩

def pos6 : Position := ⟨2, "BUY", 100, 0, 0⟩

def res6 : GetPositionsResult := ⟨true, some [pos5, pos6]⟩

theorem modify_failure_isolation_witness :
    (adjustAllPositions true (some true) res6 mRej6 st6).2.calls
      = (adjustAllPositions true (some true) res6 mOk5 st6).2.calls
    ∧ (adjustAllPositions true (some true) res6 mRej6 st6).2.failed
      = (adjustAllPositions true (some true) res6 mRej6 st6).2.calls.filterMap
          (fun adj => failMsgOf (mRej6 adj.ticket adj.stopLoss adj.takeProfit) adj.ticket) := by
  have h := modify_failure_isolation res6 mRej6 mOk5 st6 [pos5, pos6] rfl rfl
  exact ⟨h.1.2, h.2.1⟩

/-- C7 (connectivity degradation): when the bridge API object is missing or
the connected flag is not `true` (including the undefined-flag default), the
whole cycle is a no-op — the manager state (tracked set, save counter) is
unchanged, no positions are fetched, no modify calls are issued, and the
result is zero adjustments with the `Not connected to MT5` failure message. -/
theorem disconnected_cycle_noop :
    ∀ (api : Bool) (flag : Option Bool) (res : GetPositionsResult)
      (modify : Nat → ℚ → ℚ → ModifyOutcome) (s : ManagerState),
      api = false ∨ flag.getD false = false →
      adjustAllPositions api flag res modify s
        = (s, ⟨0, ["Not connected to MT5"], [], false⟩) := by
  intro api flag res modify s h
  simp only [adjustAllPositions]
  rw [if_pos h]

theorem disconnected_cycle_noop_witness :
    adjustAllPositions true none res5 mOk5 st5 = (st5, ⟨0, ["Not connected to MT5"], [], false⟩)
    ∧ adjustAllPositions false (some true) res5 mOk5 st5
        = (st5, ⟨0, ["Not connected to MT5"], [], false⟩) :=
  ⟨disconnected_cycle_noop true none res5 mOk5 st5 (Or.inr rfl),
   disconnected_cycle_noop false (some true) res5 mOk5 st5 (Or.inl rfl)⟩

def trC8 : TrailingEntry := ⟨555, 0, 1, 0, 0, 0, some (6/5), true, 0, true⟩

def posC8 : Position := ⟨555, "BUY", 11/10, 0, 6/5⟩

/-- C8 (percentage distance recomputation): whenever `slDistancePercent > 0`
the stop-loss distance used in a cycle is `currentPrice * slDistancePercent /
100`, recomputed from that cycle's price; concretely, for scenario C
(`slDistancePercent = 1`, `trailSLOnly`, `fixedTP = 1.2`, long position from
stop-loss 0) the successive prices 1.1000, 1.1050, 1.1100 yield the
stop-losses 1.0890, 1.09395, 1.0989 — monotonically increasing. -/
theorem percent_distance_recompute :
    (∀ tr p, 0 < tr.slDistancePercent →
       slDistanceOf tr p = p * (tr.slDistancePercent / 100))
    ∧ slTrace posC8 trC8 [11/10, 221/200, 111/100]
        = [1089/1000, 21879/20000, 10989/10000]
    ∧ List.Chain' (fun a b => a < b)
        [(1089 : ℚ)/1000, 21879/20000, 10989/10000] := by
  refine ⟨?_, ?_, ?_⟩
  · intro tr p h
    simp [slDistanceOf, h]
  · norm_num [slTrace, stepPos, calcForEntry, calcAfterGate, newSLOf, newTPAndFixed,
      slDistanceOf, tpDistanceOf, fixedTPInvalid, triggerReached, posC8, trC8]
  · norm_num

theorem percent_distance_recompute_witness :
    slDistanceOf trC8 (11/10) = 11/10 * (trC8.slDistancePercent / 100) :=
  percent_distance_recompute.1 trC8 (11/10) (by norm_num [trC8])

/-- C9 (idempotent disable/stop): disabling trailing on an untracked ticket
returns `{success: false, message: 'Trailing stop not found'}` with the
manager state (tracked map, interval handle, persisted-save counter) entirely
unchanged, and stopping the controller when the interval timer is already
stopped leaves the state unchanged as well; neither path throws. -/
theorem idempotent_disable_stop :
    (∀ (s : ManagerState) (t : Nat), lookupTicket s.trailingPositions t = none →
       disableTrailing s t = (s, ⟨false, "Trailing stop not found"⟩))
    ∧ (∀ s : ManagerState, s.intervalId = none → stop s = s) := by
  constructor
  · intro s t h
    simp [disableTrailing, h]
  · intro s h
    simp [stop, h]

theorem idempotent_disable_stop_witness :
    disableTrailing st5 99 = (st5, ⟨false, "Trailing stop not found"⟩)
    ∧ stop st5 = st5 :=
  ⟨idempotent_disable_stop.1 st5 99 (by norm_num [st5, lookupTicket]),
   idempotent_disable_stop.2 st5 rfl⟩

/-- C10 (implicit — unset-SL short positions never acquire a stop-loss): for
a tracked SELL position whose bridge-reported stop-loss is 0, any nonnegative
current price and positive effective SL distance make the candidate
`currentPrice + slDistance` positive, hence above the current stop-loss 0, so
the ratchet rejects it: every adjustment `calculateNewSLTP` returns for such
a position still carries stop-loss 0 — the controller never places an initial
stop-loss on the short position. -/
theorem sell_unset_sl_never_set :
    ∀ (tr : TrailingEntry) (pos : Position) (p : ℚ),
      pos.type = "SELL" → pos.stop_loss = 0 →
      0 < slDistanceOf tr p → 0 ≤ p →
      0 < p + slDistanceOf tr p
      ∧ ∀ adj tr', calcForEntry tr pos p = (some adj, tr') → adj.stopLoss = 0 := by
  intro tr pos p hs hsl hd hp
  refine ⟨by linarith, ?_⟩
  intro adj tr' h
  have hb : pos.type ≠ "BUY" := by simp [hs]
  have h3 := calcAfterGate_some (calcForEntry_some h)
  rw [h3.2.1, newSLOf_sell hb hd, hsl]
  rw [if_neg (by intro hcon; linarith)]

def tr10 : TrailingEntry := ⟨3, 5, 0, 5, 0, 0, none, false, 0, true⟩

def pos10 : Position := ⟨3, "SELL", 100, 0, 0⟩

def tr10x : TrailingEntry := ⟨3, 5, 0, 5, 0, 0, none, false, 100, true⟩

theorem sell_unset_sl_never_set_witness :
    (⟨3, 0, 95, 100⟩ : Adjustment).stopLoss = 0 :=
  (sell_unset_sl_never_set tr10 pos10 100 rfl rfl (by norm_num [slDistanceOf, tr10])
      (by norm_num)).2 ⟨3, 0, 95, 100⟩ tr10x
    (by
      norm_num [calcForEntry, calcAfterGate, newSLOf, newTPAndFixed, slDistanceOf,
        tpDistanceOf, fixedTPInvalid, triggerReached, tr10, pos10, tr10x]
      decide)

end ComfyTrade
